import Mathlib

/-!
# berrypay/appsec: a shallow embedding of the key stores and engines

The Go package keeps its keys in package-level variables (`AESSecretKey`,
`AppPrivateKey`, `AppPublicKey`).  Here every function takes the variables it
reads as arguments and returns the variables it writes next to its results.

A Go function can end in two ways: it returns its results, or a run-time panic
unwinds it.  Functions of the package that can panic return `Except Panic _`
(or `LoadOutcome` for the key loaders, which also carry the store).

Functions of the Go standard library (`crypto/cipher`, `crypto/x509`,
`encoding/pem`, `crypto/rsa`) are not part of the package: they are parameters
of the embedding, and the theorems hold for every choice of them.
-/

namespace Appsec

/-! ## Bytes, errors, panics -/

abbrev Byte := Fin 256

/-- The contents of a Go `[]byte` or `string`.  A nil slice is the empty list:
the package looks at its slices only through `len` and their elements. -/
abbrev Bytes := List Byte

/-- Run-time panics the package can raise. -/
inductive Panic where
  /-- A slice expression with an index beyond its bound: `index` against `bound`. -/
  | sliceBounds (index bound : Nat)
  /-- A field selected through a nil pointer. -/
  | nilDereference
  /-- A single-value type assertion `x.(T)` on a value that is not a `T`. -/
  | typeAssertion
  deriving DecidableEq, Repr

/-- Go `error` values the package returns. -/
inductive Error where
  /-- The value `fmt.Errorf(INVALID_AES_KEY_LENGTH, got)`. -/
  | invalidAESKeyLength (got : Nat)
  /-- The value `aes.KeySizeError(got)`. -/
  | aesKeySize (got : Nat)
  /-- The value `fmt.Errorf("not a parsable RSA private key")`. -/
  | notRSAPrivateKey
  /-- The value `fmt.Errorf("AppPrivateKey is not loaded")`. -/
  | privateKeyNotLoaded
  /-- The error of `gcm.Open`: "cipher: message authentication failed". -/
  | gcmOpenFailed
  /-- An error made by the operating system or by a library parser. -/
  | library (msg : String)
  deriving DecidableEq, Repr

/-- The text of `INVALID_AES_KEY_LENGTH` with `%d` filled in. -/
def INVALID_AES_KEY_LENGTH (got : Nat) : String :=
  "invalid AES key length. Expected 32 bytes, got " ++ toString got ++ " bytes"

/-- The message `err.Error()` of an error value. -/
def Error.message : Error → String
  | .invalidAESKeyLength got => INVALID_AES_KEY_LENGTH got
  | .aesKeySize got => "crypto/aes: invalid key size " ++ toString got
  | .notRSAPrivateKey => "not a parsable RSA private key"
  | .privateKeyNotLoaded => "AppPrivateKey is not loaded"
  | .gcmOpenFailed => "cipher: message authentication failed"
  | .library msg => msg

/-! ## Go slices with capacity -/

/-- A Go slice value as a slice expression sees it: the `len` elements, and the
elements of the backing array between `len` and `cap`. -/
structure Slice where
  elems : Bytes
  spare : Bytes
  deriving DecidableEq, Repr

/-- Go `len(s)`. -/
def Slice.len (s : Slice) : Nat := s.elems.length

/-- Go `cap(s)`. -/
def Slice.cap (s : Slice) : Nat := s.elems.length + s.spare.length

/-- The slice expression `s[:hi]`: Go allows `hi` up to `cap(s)`. -/
def Slice.upTo (s : Slice) (hi : Nat) : Except Panic Slice :=
  if hi ≤ s.cap then
    .ok ⟨(s.elems ++ s.spare).take hi, (s.elems ++ s.spare).drop hi⟩
  else .error (.sliceBounds hi s.cap)

/-- The slice expression `s[lo:]`: its upper index is `len(s)`, so Go allows
`lo` up to `len(s)`. -/
def Slice.startAt (s : Slice) (lo : Nat) : Except Panic Slice :=
  if lo ≤ s.len then .ok ⟨s.elems.drop lo, s.spare⟩
  else .error (.sliceBounds lo s.len)

/-! ## aes.go -/

/-- The AES-GCM primitive of `crypto/cipher`, keyed: `Seal` gives
ciphertext followed by tag, `Open` gives the plaintext when the tag verifies.
`Seal` is total here: the panic of the library on a plaintext beyond its size
limit (about 64 GiB) is not modelled. -/
structure GCMPrimitive where
  Seal : (key nonce plaintext additionalData : Bytes) → Bytes
  Open : (key nonce ciphertext additionalData : Bytes) → Option Bytes

/-- Under a 32-byte key and a 12-byte nonce, with no associated data, `Open`
inverts `Seal`. -/
def GCMPrimitive.OpenInvertsSeal (G : GCMPrimitive) : Prop :=
  ∀ key nonce plaintext : Bytes, key.length = 32 → nonce.length = 12 →
    G.Open key nonce (G.Seal key nonce plaintext []) [] = some plaintext

/-- The output of `Seal` is as long as the plaintext plus the 16-byte tag. -/
def GCMPrimitive.SealAddsTag (G : GCMPrimitive) : Prop :=
  ∀ key nonce plaintext : Bytes, key.length = 32 → nonce.length = 12 →
    (G.Seal key nonce plaintext []).length = plaintext.length + 16

/-- The reader `crypto/rand.Reader`: it fails, or it fills the buffer it is
given from its stream. -/
structure RandReader where
  failure : Option Error
  stream : Nat → Byte

/-- Go `rand.Read(buf)` on a buffer of `n` bytes: the buffer afterwards, and the error. -/
def rand_Read (rng : RandReader) (n : Nat) : Bytes × Option Error :=
  match rng.failure with
  | some e => (List.replicate n 0, some e)
  | none => ((List.range n).map rng.stream, none)

/-- Go `aes.NewCipher(key)`: the block cipher of a 16, 24 or 32-byte key. -/
def aes_NewCipher (key : Bytes) : Except Error Bytes :=
  if key.length = 16 ∨ key.length = 24 ∨ key.length = 32 then .ok key
  else .error (.aesKeySize key.length)

/-- The value `cipher.NewGCM(block)` returns for an AES block cipher. -/
structure AEAD where
  NonceSize : Nat
  Seal : (nonce plaintext additionalData : Bytes) → Bytes
  Open : (nonce ciphertext additionalData : Bytes) → Except Error Bytes

/-- Go `cipher.NewGCM(block)` for an AES block cipher: the block size is 16, so
it does not fail; the nonce size is the standard 12. -/
def cipher_NewGCM (G : GCMPrimitive) (block : Bytes) : Except Error AEAD :=
  .ok {
    NonceSize := 12
    Seal := fun nonce plaintext aad => G.Seal block nonce plaintext aad
    Open := fun nonce ciphertext aad =>
      match G.Open block nonce ciphertext aad with
      | some plaintext => .ok plaintext
      | none => .error .gcmOpenFailed }

/-- Go `InitAES(key)`: the new value of `AESSecretKey`, and the error. -/
def InitAES (AESSecretKey : Bytes) (key : Bytes) : Bytes × Option Error :=
  if key.length ≠ 32 then (AESSecretKey, some (.invalidAESKeyLength key.length))
  else (key, none)

/-- Go `EncryptAESGCM(secret)`: the returned bytes and error. -/
def EncryptAESGCM (G : GCMPrimitive) (rng : RandReader) (AESSecretKey : Bytes)
    (secret : Bytes) : Bytes × Option Error :=
  if AESSecretKey.length ≠ 32 then
    ([], some (.invalidAESKeyLength AESSecretKey.length))
  else
    match aes_NewCipher AESSecretKey with
    | .error err => ([], some err)
    | .ok aes =>
      match cipher_NewGCM G aes with
      | .error err => ([], some err)
      | .ok gcm =>
        match rand_Read rng gcm.NonceSize with
        | (_, some err) => ([], some err)
        | (nonce, none) =>
          -- Seal appends to its first argument, the nonce
          let cipherText := nonce ++ gcm.Seal nonce secret []
          (cipherText, none)

/-- Go `DecryptAESGCM(cipherText)`: a panic, or the returned bytes and error. -/
def DecryptAESGCM (G : GCMPrimitive) (AESSecretKey : Bytes) (cipherText : Slice) :
    Except Panic (Bytes × Option Error) :=
  if AESSecretKey.length ≠ 32 then
    .ok ([], some (.invalidAESKeyLength AESSecretKey.length))
  else
    match aes_NewCipher AESSecretKey with
    | .error err => .ok ([], some err)
    | .ok aes =>
      match cipher_NewGCM G aes with
      | .error err => .ok ([], some err)
      | .ok gcm =>
        let nonceSize := gcm.NonceSize
        match cipherText.upTo nonceSize with
        | .error p => .error p
        | .ok nonce =>
          match cipherText.startAt nonceSize with
          | .error p => .error p
          | .ok cipherText =>
            match gcm.Open nonce.elems cipherText.elems [] with
            | .error err => .ok ([], some err)
            | .ok secret => .ok (secret, none)

/-! ## SHA-256 (FIPS 180-4), as `crypto/sha256` computes it

`hmac.go` calls `crypto/hmac`, `crypto/sha256` and `encoding/base64`.  They are
written out here after their standards (FIPS 180-4, RFC 2104, RFC 4648), with
32-bit words as natural numbers reduced modulo `2 ^ 32`; the theorems
`sha256_abc` and `ComputeHMAC256_rfc4231_case2` run them on published test
vectors. -/

/-- Addition of 32-bit words. -/
def add32 (a b : Nat) : Nat := (a + b) % 2 ^ 32

/-- Rotation of a 32-bit word to the right. -/
def rotr32 (x n : Nat) : Nat := ((x >>> n) ||| (x <<< (32 - n))) % 2 ^ 32

/-- Bitwise complement of a 32-bit word. -/
def not32 (x : Nat) : Nat := x ^^^ 0xffffffff

/-- The function Ch of the standard. -/
def sha256Ch (x y z : Nat) : Nat := (x &&& y) ^^^ (not32 x &&& z)

/-- The function Maj of the standard. -/
def sha256Maj (x y z : Nat) : Nat := (x &&& y) ^^^ (x &&& z) ^^^ (y &&& z)

/-- The function written with a capital sigma and index 0. -/
def sha256BigSigma0 (x : Nat) : Nat := rotr32 x 2 ^^^ rotr32 x 13 ^^^ rotr32 x 22

/-- The function written with a capital sigma and index 1. -/
def sha256BigSigma1 (x : Nat) : Nat := rotr32 x 6 ^^^ rotr32 x 11 ^^^ rotr32 x 25

/-- The function written with a small sigma and index 0. -/
def sha256SmallSigma0 (x : Nat) : Nat := rotr32 x 7 ^^^ rotr32 x 18 ^^^ (x >>> 3)

/-- The function written with a small sigma and index 1. -/
def sha256SmallSigma1 (x : Nat) : Nat := rotr32 x 17 ^^^ rotr32 x 19 ^^^ (x >>> 10)

/-- The largest `r` below `2 ^ bits` with `r ^ k ≤ n` when started at `r = 0`:
the integer part of the `k`-th root of `n`, built bit by bit from the top. -/
def iroot (k n : Nat) : Nat → Nat → Nat
  | 0, r => r
  | bits + 1, r => iroot k n bits (if (r + 2 ^ bits) ^ k ≤ n then r + 2 ^ bits else r)

/-- The first 64 prime numbers. -/
def first64Primes : List Nat := [
  2, 3, 5, 7, 11, 13, 17, 19, 23, 29, 31, 37, 41, 43, 47, 53,
  59, 61, 67, 71, 73, 79, 83, 89, 97, 101, 103, 107, 109, 113, 127, 131,
  137, 139, 149, 151, 157, 163, 167, 173, 179, 181, 191, 193, 197, 199, 211, 223,
  227, 229, 233, 239, 241, 251, 257, 263, 269, 271, 277, 281, 283, 293, 307, 311]

/-- The 64 round constants: the first 32 bits of the fractional parts of the
cube roots of the first 64 primes (the table `_K` of `crypto/sha256`, from
0x428a2f98 to 0xc67178f2). -/
def sha256K : List Nat :=
  first64Primes.map (fun p => iroot 3 (p * 2 ^ 96) 36 0 % 2 ^ 32)

/-- The initial hash value: the first 32 bits of the fractional parts of the
square roots of the first 8 primes (from 0x6a09e667 to 0x5be0cd19). -/
def sha256Init : List Nat :=
  (first64Primes.take 8).map (fun p => iroot 2 (p * 2 ^ 64) 36 0 % 2 ^ 32)

/-- The `n` low bytes of `x`, most significant first. -/
def bigEndian : Nat → Nat → Bytes
  | 0, _ => []
  | n + 1, x => bigEndian n (x / 256) ++ [Fin.ofNat x]

/-- The number a byte string spells, most significant byte first. -/
def fromBigEndian (bs : Bytes) : Nat := bs.foldl (fun acc b => acc * 256 + b.val) 0

/-- The padding of a message of `len` bytes: 0x80, zeros up to 56 modulo 64,
and the length in bits as 8 bytes. -/
def sha256Padding (len : Nat) : Bytes :=
  [0x80] ++ List.replicate ((119 - len % 64) % 64) 0 ++ bigEndian 8 (len * 8)

/-- The first `n` consecutive `size`-byte pieces of `bs`. -/
def chunks (size : Nat) : Nat → Bytes → List Bytes
  | 0, _ => []
  | n + 1, bs => bs.take size :: chunks size n (bs.drop size)

/-- The message schedule, extended by `n` words. -/
def sha256Schedule : Nat → List Nat → List Nat
  | 0, w => w
  | n + 1, w =>
    let t := w.length
    sha256Schedule n (w ++ [add32 (add32 (add32 (sha256SmallSigma1 (w.getD (t - 2) 0))
      (w.getD (t - 7) 0)) (sha256SmallSigma0 (w.getD (t - 15) 0))) (w.getD (t - 16) 0)])

/-- One round on the working variables `a` to `h`, with `kw` the sum of round
constant and schedule word. -/
def sha256Round (s : List Nat) (kw : Nat) : List Nat :=
  match s with
  | [a, b, c, d, e, f, g, h] =>
    let t1 := add32 (add32 (add32 h (sha256BigSigma1 e)) (sha256Ch e f g)) kw
    let t2 := add32 (sha256BigSigma0 a) (sha256Maj a b c)
    [add32 t1 t2, a, b, c, add32 d t1, e, f, g]
  | _ => s

/-- The compression of one 64-byte block into the hash value. -/
def sha256Block (hash : List Nat) (block : Bytes) : List Nat :=
  let w := sha256Schedule 48 ((chunks 4 16 block).map fromBigEndian)
  let out := (List.zipWith add32 sha256K w).foldl sha256Round hash
  List.zipWith add32 hash out

/-- Go `sha256.Sum256`: the 32-byte digest. -/
def sha256 (msg : Bytes) : Bytes :=
  let padded := msg ++ sha256Padding msg.length
  let hash := (chunks 64 (padded.length / 64) padded).foldl sha256Block sha256Init
  (hash.map (bigEndian 4)).flatten

/-! ## encoding/base64 -/

/-- The character of the standard alphabet for a 6-bit value. -/
def base64Char (v : Nat) : Byte :=
  if v < 26 then Fin.ofNat (65 + v)
  else if v < 52 then Fin.ofNat (97 + (v - 26))
  else if v < 62 then Fin.ofNat (48 + (v - 52))
  else if v = 62 then 43
  else 47

/-- Go `base64.StdEncoding.EncodeToString`. -/
def base64Encode : Bytes → Bytes
  | a :: b :: c :: rest =>
    let v := a.val * 65536 + b.val * 256 + c.val
    base64Char (v / 262144) :: base64Char (v / 4096 % 64) :: base64Char (v / 64 % 64)
      :: base64Char (v % 64) :: base64Encode rest
  | [a, b] =>
    let v := a.val * 65536 + b.val * 256
    [base64Char (v / 262144), base64Char (v / 4096 % 64), base64Char (v / 64 % 64), 61]
  | [a] =>
    let v := a.val * 65536
    [base64Char (v / 262144), base64Char (v / 4096 % 64), 61, 61]
  | [] => []

/-! ## hmac.go -/

/-- Go `hmac.New(sha256.New, key)`, `Write(message)`, `Sum(nil)`. -/
def hmacSHA256 (key message : Bytes) : Bytes :=
  let blocksize := 64
  let key := if key.length > blocksize then sha256 key else key
  let padded := key ++ List.replicate (blocksize - key.length) 0
  let ipad := padded.map (fun b => Fin.ofNat (b.val ^^^ 0x36))
  let opad := padded.map (fun b => Fin.ofNat (b.val ^^^ 0x5c))
  sha256 (opad ++ sha256 (ipad ++ message))

/-- Go `ComputeHMAC256(message, secret)`. -/
def ComputeHMAC256 (message secret : Bytes) : Bytes :=
  let key := secret
  base64Encode (hmacSHA256 key message)

/-- Go `IsMatchedHMAC256(signature, message, secret)`. -/
def IsMatchedHMAC256 (signature message secret : Bytes) : Bool :=
  ComputeHMAC256 message secret == signature

/-! ### The parts of the HMAC, named for the statements below -/

/-- The 64-byte block `hmac.New` makes of the key. -/
def hmacKeyBlock (key : Bytes) : Bytes :=
  let key := if key.length > 64 then sha256 key else key
  key ++ List.replicate (64 - key.length) 0

/-- The inner pad of `hmac.New`. -/
def hmacIpad (key : Bytes) : Bytes :=
  (hmacKeyBlock key).map (fun b => Fin.ofNat (b.val ^^^ 0x36))

/-- The outer pad of `hmac.New`. -/
def hmacOpad (key : Bytes) : Bytes :=
  (hmacKeyBlock key).map (fun b => Fin.ofNat (b.val ^^^ 0x5c))

/-- Two different inputs with the same SHA-256 digest. -/
def sha256Collide (x y : Bytes) : Prop := x ≠ y ∧ sha256 x = sha256 y

/-- Whether two inputs collide can be computed. -/
instance sha256Collide.decidable (x y : Bytes) : Decidable (sha256Collide x y) := by
  unfold sha256Collide
  infer_instance

/-- The 6-bit value of a character of the standard alphabet. -/
def base64Index (c : Byte) : Nat :=
  if 65 ≤ c.val ∧ c.val ≤ 90 then c.val - 65
  else if 97 ≤ c.val ∧ c.val ≤ 122 then c.val - 71
  else if 48 ≤ c.val ∧ c.val ≤ 57 then c.val + 4
  else if c.val = 43 then 62
  else 63

/-! ## rsa.go -/

/-- Go `rsa.PublicKey`. -/
structure RSAPublicKey where
  N : Nat
  E : Nat
  deriving DecidableEq, Repr

/-- Go `rsa.PrivateKey`: the public half, the private exponent, the primes. -/
structure RSAPrivateKey where
  PublicKey : RSAPublicKey
  D : Nat
  Primes : List Nat
  deriving DecidableEq, Repr

/-- The dynamic types of the key `x509.ParsePKCS8PrivateKey` returns. -/
inductive PrivateKeyValue where
  | rsa (key : RSAPrivateKey)
  | ecdsa
  | ed25519
  | ecdh
  deriving DecidableEq, Repr

/-- The dynamic types of the field `PublicKey` of a parsed certificate; `unknown`
is the nil interface of an algorithm the parser does not know. -/
inductive PublicKeyValue where
  | rsa (key : RSAPublicKey)
  | dsa
  | ecdsa
  | ed25519
  | unknown
  deriving DecidableEq, Repr

/-- Go `pem.Block`: the text of its `Type` line, and its decoded `Bytes`. -/
structure PemBlock where
  BlockType : String
  Bytes : List Byte
  deriving DecidableEq, Repr

/-- Go `x509.Certificate`, of which the package reads one field. -/
structure Certificate where
  PublicKey : PublicKeyValue
  deriving DecidableEq, Repr

/-- The parsers of `encoding/pem`, `crypto/x509` and the check `Validate` of
`crypto/rsa`.  `pemDecode` is the first result of `pem.Decode`: the first block
of the data, or nil when the data holds none.  The parser of `crypto/x509`
runs the same check on an RSA key before it returns it, so in a run of the
program the keys `ParsePKCS8PrivateKey` returns pass `Validate`; no theorem
below needs that. -/
structure X509Library where
  pemDecode : Bytes → Option PemBlock
  ParsePKCS8PrivateKey : Bytes → Except Error PrivateKeyValue
  Validate : RSAPrivateKey → Option Error
  ParseCertificate : Bytes → Except Error Certificate

/-- What the loaders ask of the operating system.  `binDir` is
`os.Executable` followed by `filepath.Abs(filepath.Dir(.))`, `join` is
`filepath.Join`, and `readAll` is `os.Open`, `Stat` and the buffered `Read` of
`Size()` bytes: the error of opening or reading, or the bytes of the file. -/
structure FileSystem where
  binDir : Except Error String
  join : String → String → String
  readAll : String → Except Error Bytes

/-- The variables `AppPublicKey` and `AppPrivateKey`; `none` is the nil pointer. -/
structure KeyStore where
  AppPublicKey : Option RSAPublicKey
  AppPrivateKey : Option RSAPrivateKey
  deriving DecidableEq, Repr

/-- How a loader ends: it returns its error result, or it panics; either way
with the key store as the call left it. -/
inductive LoadOutcome where
  | returned (store : KeyStore) (err : Option Error)
  | panicked (store : KeyStore) (p : Panic)
  deriving DecidableEq, Repr

/-- Go `LoadPrivateKey(path)`. -/
def LoadPrivateKey (L : X509Library) (fs : FileSystem) (store : KeyStore)
    (path : String) : LoadOutcome :=
  match fs.binDir with
  | .error err => .returned store (some err)
  | .ok binDir =>
    let pemFilePath := if path ≠ "" then path else fs.join binDir "app.key"
    match fs.readAll pemFilePath with
    | .error err => .returned store (some err)
    | .ok pemFileBytes =>
      match L.pemDecode pemFileBytes with
      | none => .panicked store .nilDereference  -- pemBlock.Bytes
      | some pemBlock =>
        match L.ParsePKCS8PrivateKey pemBlock.Bytes with
        | .error err => .returned store (some err)
        | .ok parsedKey =>
          -- AppPrivateKey, parsingOk = parsedKey.(*rsa.PrivateKey)
          match parsedKey with
          | .rsa key =>
            let store := { store with AppPrivateKey := some key }
            match L.Validate key with
            | some err => .returned store (some err)
            | none => .returned { store with AppPublicKey := some key.PublicKey } none
          | _ =>
            .returned { store with AppPrivateKey := none } (some .notRSAPrivateKey)

/-- Go `LoadPublicKey(path)`. -/
def LoadPublicKey (L : X509Library) (fs : FileSystem) (store : KeyStore)
    (path : String) : LoadOutcome :=
  match fs.binDir with
  | .error err => .returned store (some err)
  | .ok binDir =>
    let pemFilePath := if path ≠ "" then path else fs.join binDir "app.crt"
    match fs.readAll pemFilePath with
    | .error err => .returned store (some err)
    | .ok pemFileBytes =>
      match L.pemDecode pemFileBytes with
      | none => .panicked store .nilDereference  -- pemBlock.Bytes
      | some pemBlock =>
        match L.ParseCertificate pemBlock.Bytes with
        | .error err => .returned store (some err)
        | .ok cert =>
          -- AppPublicKey = cert.PublicKey.(*rsa.PublicKey)
          match cert.PublicKey with
          | .rsa key => .returned { store with AppPublicKey := some key } none
          | _ => .panicked store .typeAssertion

/-- The OAEP primitives of `crypto/rsa` on keys that are there, and the
decoder of `encoding/base64`. -/
structure RSALibrary where
  EncryptOAEP : RandReader → RSAPublicKey → (msg label : Bytes) → Except Error Bytes
  DecryptOAEP : RSAPrivateKey → (ciphertext label : Bytes) → Except Error Bytes
  base64Decode : Bytes → Except Error Bytes

/-- Go `rsa.EncryptOAEP(hash, random, pub, msg, label)` called with the pointer
`pub`: its first statement reads `pub.N`. -/
def rsa_EncryptOAEP (R : RSALibrary) (rng : RandReader) (pub : Option RSAPublicKey)
    (msg label : Bytes) : Except Panic (Except Error Bytes) :=
  match pub with
  | none => .error .nilDereference
  | some key => .ok (R.EncryptOAEP rng key msg label)

/-- Go `EncryptOAEP(secret, label)`: a panic, or the returned string and error. -/
def EncryptOAEP (R : RSALibrary) (rng : RandReader) (AppPublicKey : Option RSAPublicKey)
    (secret label : Bytes) : Except Panic (Bytes × Option Error) :=
  match rsa_EncryptOAEP R rng AppPublicKey secret label with
  | .error p => .error p
  | .ok (.error err) => .ok ([], some err)
  | .ok (.ok cipherText) => .ok (base64Encode cipherText, none)

/-- Go `DecryptOAEP(cipher, label)`: the returned string and error. -/
def DecryptOAEP (R : RSALibrary) (AppPrivateKey : Option RSAPrivateKey)
    (cipher label : Bytes) : Bytes × Option Error :=
  match AppPrivateKey with
  | none => ([], some .privateKeyNotLoaded)
  | some key =>
    match R.base64Decode cipher with
    | .error err => ([], some err)
    | .ok cipherText =>
      match R.DecryptOAEP key cipherText label with
      | .error err => ([], some err)
      | .ok secret => (secret, none)

/-! ## Sample libraries and inputs

Small stand-ins for the library parameters, to run the package on concrete
inputs. -/
/-- A stand-in for AES-GCM with the shape of the real one: the tag is 16
bytes made from key and nonce, and `Open` checks it. -/
def sampleGCM : GCMPrimitive where
  Seal := fun key nonce plaintext _ =>
    plaintext.reverse ++ List.replicate 16 ((key.headD 0) + (nonce.headD 0))
  Open := fun key nonce ciphertext _ =>
    if 16 ≤ ciphertext.length ∧
        ciphertext.drop (ciphertext.length - 16)
          = List.replicate 16 ((key.headD 0) + (nonce.headD 0)) then
      some (ciphertext.take (ciphertext.length - 16)).reverse
    else none

/-- A random reader that does not fail. -/
def sampleRand : RandReader where
  failure := none
  stream := fun i => Fin.ofNat (7 * i + 3)

/-- A 32-byte key. -/
def sampleKey : Bytes := (List.range 32).map (fun i => Fin.ofNat (i + 1))

/-- The ASCII bytes of a text. -/
def ascii (s : String) : Bytes := s.toList.map (fun c => Fin.ofNat c.toNat)

/-- A stand-in for the parsers.  A file is a PEM file when it starts with a
dash; the first byte after it tells the key type (1 RSA, 2 elliptic curve),
and an RSA key is followed by its two primes and its modulus.  As in
`crypto/x509`, the parser checks an RSA key itself: a key whose modulus is not
the product of its primes is a parse error. -/
def sampleX509 : X509Library where
  pemDecode := fun data =>
    match data.map Fin.val with
    | 45 :: _ => some ⟨"SAMPLE", data.drop 1⟩
    | _ => none
  ParsePKCS8PrivateKey := fun der =>
    match der.map Fin.val with
    | 1 :: p :: q :: n :: _ =>
      if p * q = n then .ok (.rsa ⟨⟨n, 65537⟩, 1, [p, q]⟩)
      else .error (.library "x509: failed to parse RSA private key embedded in PKCS#8")
    | 2 :: _ => .ok .ecdsa
    | _ => .error (.library "x509: failed to parse private key")
  Validate := fun key =>
    if key.Primes.foldl (fun a b => a * b) 1 = key.PublicKey.N then none
    else some (.library "crypto/rsa: invalid modulus")
  ParseCertificate := fun der =>
    match der.map Fin.val with
    | 1 :: n :: _ => .ok ⟨.rsa ⟨n, 65537⟩⟩
    | 2 :: _ => .ok ⟨.ecdsa⟩
    | _ => .error (.library "x509: malformed certificate")

/-- A file system whose every path holds the same readable file. -/
def fileSystemWith (content : Bytes) : FileSystem where
  binDir := .ok "/opt/app"
  join := fun dir name => dir ++ "/" ++ name
  readAll := fun _ => .ok content

/-- A key store with a key pair loaded. -/
def loadedStore : KeyStore where
  AppPublicKey := some ⟨143, 65537⟩
  AppPrivateKey := some ⟨⟨143, 65537⟩, 1, [11, 13]⟩

/-- The key store before any load. -/
def emptyStore : KeyStore where
  AppPublicKey := none
  AppPrivateKey := none

/-! ## Helper lemmas -/

/-- A reader that does not fail fills the buffer from its stream. -/
theorem rand_Read_ok (rng : RandReader) (h : rng.failure = none) (n : Nat) :
    rand_Read rng n = ((List.range n).map rng.stream, none) := by
  simp [rand_Read, h]

/-- With a 32-byte key and a reader that does not fail, the result of
`EncryptAESGCM` is the drawn nonce followed by the seal. -/
theorem EncryptAESGCM_ok (G : GCMPrimitive) (rng : RandReader) (key secret : Bytes)
    (hkey : key.length = 32) (hrng : rng.failure = none) :
    EncryptAESGCM G rng key secret
      = ((List.range 12).map rng.stream
          ++ G.Seal key ((List.range 12).map rng.stream) secret [], none) := by
  simp [EncryptAESGCM, hkey, aes_NewCipher, cipher_NewGCM, rand_Read, hrng]

/-- With a 32-byte key, `DecryptAESGCM` on an input of at least 12 bytes opens
what follows the first 12 bytes under those 12 bytes as nonce. -/
theorem DecryptAESGCM_split (G : GCMPrimitive) (key nonce rest spare : Bytes)
    (hkey : key.length = 32) (hnonce : nonce.length = 12) :
    DecryptAESGCM G key ⟨nonce ++ rest, spare⟩
      = match G.Open key nonce rest [] with
        | some secret => .ok (secret, none)
        | none => .ok ([], some .gcmOpenFailed) := by
  have h1 : 12 ≤ nonce.length + rest.length + spare.length := by omega
  have h2 : 12 ≤ nonce.length + rest.length := by omega
  have h3 : (nonce ++ rest ++ spare).take 12 = nonce := by
    rw [List.append_assoc, List.take_append_eq_append_take]
    simp [hnonce]
  have h4 : (nonce ++ rest).drop 12 = rest := by
    rw [List.drop_append_eq_append_drop]
    simp [hnonce]
  simp only [DecryptAESGCM, hkey, aes_NewCipher, cipher_NewGCM, Slice.upTo, Slice.startAt,
    Slice.cap, Slice.len, List.length_append, h1, h2, h3, h4]
  simp
  cases G.Open key nonce rest [] <;> rfl

/-- The sample primitive opens what it sealed. -/
theorem sampleGCM_OpenInvertsSeal : sampleGCM.OpenInvertsSeal := by
  intro key nonce plaintext _ _
  simp [sampleGCM]

/-- The sample primitive adds 16 bytes. -/
theorem sampleGCM_SealAddsTag : sampleGCM.SealAddsTag := by
  intro key nonce plaintext _ _
  simp [sampleGCM]

/-- The sample key has 32 bytes. -/
theorem sampleKey_length : sampleKey.length = 32 := by
  simp [sampleKey]

/-! ## Claims about aes.go -/

/-- C1: for every 32-byte key installed with `InitAES`, every plaintext and
every nonce the random reader yields, `EncryptAESGCM` succeeds, and
`DecryptAESGCM` on its output (whatever the capacity of that slice) succeeds and
returns the plaintext, provided `Open` inverts `Seal`. -/
theorem aes_gcm_round_trip (G : GCMPrimitive) (hG : G.OpenInvertsSeal) (rng : RandReader)
    (hrng : rng.failure = none) (store K P spare : Bytes) (hK : K.length = 32) :
    (InitAES store K).2 = none ∧
    (EncryptAESGCM G rng (InitAES store K).1 P).2 = none ∧
    DecryptAESGCM G (InitAES store K).1
        ⟨(EncryptAESGCM G rng (InitAES store K).1 P).1, spare⟩ = .ok (P, none) := by
  have hinit : InitAES store K = (K, none) := by simp [InitAES, hK]
  rw [hinit, EncryptAESGCM_ok G rng K P hK hrng]
  refine ⟨rfl, rfl, ?_⟩
  have hn : ((List.range 12).map rng.stream).length = 12 := by simp
  show DecryptAESGCM G K ⟨_ ++ _, spare⟩ = _
  rw [DecryptAESGCM_split G K _ _ spare hK hn, hG K _ P hK hn]

/-- The round trip on the sample primitive, with the store unset before and the
empty plaintext and a three-byte plaintext. -/
theorem aes_gcm_round_trip_witness :
    DecryptAESGCM sampleGCM (InitAES [] sampleKey).1
        ⟨(EncryptAESGCM sampleGCM sampleRand (InitAES [] sampleKey).1 []).1, []⟩
      = .ok ([], none) ∧
    DecryptAESGCM sampleGCM (InitAES [] sampleKey).1
        ⟨(EncryptAESGCM sampleGCM sampleRand (InitAES [] sampleKey).1 [1, 2, 3]).1, [9]⟩
      = .ok ([1, 2, 3], none) :=
  ⟨(aes_gcm_round_trip sampleGCM sampleGCM_OpenInvertsSeal sampleRand rfl [] sampleKey []
      [] sampleKey_length).2.2,
   (aes_gcm_round_trip sampleGCM sampleGCM_OpenInvertsSeal sampleRand rfl [] sampleKey
      [1, 2, 3] [9] sampleKey_length).2.2⟩

/-- C2: `InitAES(key)` returns no error exactly when `len(key) = 32`; then the
store holds `key`; otherwise the error is the invalid-key-length error for
`len(key)`, whose message spells that length, and the store holds what it held
before (an unset store stays unset).  Lengths 0, 16, 24, 31, 33 fail. -/
theorem InitAES_contract (store key : Bytes) :
    ((InitAES store key).2 = none ↔ key.length = 32) ∧
    (key.length = 32 → InitAES store key = (key, none)) ∧
    (key.length ≠ 32 →
      InitAES store key = (store, some (.invalidAESKeyLength key.length)) ∧
      (Error.invalidAESKeyLength key.length).message
        = "invalid AES key length. Expected 32 bytes, got " ++ toString key.length
            ++ " bytes") ∧
    (key.length ≠ 32 → store = [] → (InitAES store key).1 = []) ∧
    (key.length ∈ [0, 16, 24, 31, 33] → (InitAES store key).2 ≠ none) := by
  refine ⟨?_, ?_, ?_, ?_, ?_⟩
  · by_cases h : key.length = 32 <;> simp [InitAES, h]
  · intro h; simp [InitAES, h]
  · intro h; exact ⟨by simp [InitAES, h], rfl⟩
  · intro h hs; simp [InitAES, h, hs]
  · intro h
    have h32 : key.length ≠ 32 := by
      intro h32; rw [h32] at h; simp at h
    simp [InitAES, h32]

/-- Calls of `InitAES` with keys of 0, 16, 24, 31, 33 and 32 bytes, over a store that held
a key, and on a 16-byte key over an unset store. -/
theorem InitAES_contract_witness :
    InitAES sampleKey [] = (sampleKey, some (.invalidAESKeyLength 0)) ∧
    InitAES sampleKey (List.replicate 16 7) = (sampleKey, some (.invalidAESKeyLength 16)) ∧
    InitAES sampleKey (List.replicate 24 7) = (sampleKey, some (.invalidAESKeyLength 24)) ∧
    InitAES sampleKey (List.replicate 31 7) = (sampleKey, some (.invalidAESKeyLength 31)) ∧
    InitAES sampleKey (List.replicate 33 7) = (sampleKey, some (.invalidAESKeyLength 33)) ∧
    InitAES sampleKey (List.replicate 32 7) = (List.replicate 32 7, none) ∧
    InitAES [] (List.replicate 16 7) = ([], some (.invalidAESKeyLength 16)) ∧
    (Error.invalidAESKeyLength 16).message
      = "invalid AES key length. Expected 32 bytes, got 16 bytes" :=
  ⟨((InitAES_contract sampleKey []).2.2.1 (by decide)).1,
   ((InitAES_contract sampleKey (List.replicate 16 7)).2.2.1 (by decide)).1,
   ((InitAES_contract sampleKey (List.replicate 24 7)).2.2.1 (by decide)).1,
   ((InitAES_contract sampleKey (List.replicate 31 7)).2.2.1 (by decide)).1,
   ((InitAES_contract sampleKey (List.replicate 33 7)).2.2.1 (by decide)).1,
   (InitAES_contract sampleKey (List.replicate 32 7)).2.1 (by decide),
   ((InitAES_contract [] (List.replicate 16 7)).2.2.1 (by decide)).1,
   by decide⟩

/-- C3 (what the code does): with a 32-byte key in the store, `DecryptAESGCM`
on an input shorter than 12 bytes does not return: it panics in the slice
expressions, at `cipherText[:12]` when the capacity is below 12 and at
`cipherText[12:]` otherwise. -/
theorem DecryptAESGCM_short_input_panics (G : GCMPrimitive) (key : Bytes)
    (cipherText : Slice) (hkey : key.length = 32) (hshort : cipherText.len < 12) :
    DecryptAESGCM G key cipherText
      = .error (if 12 ≤ cipherText.cap then .sliceBounds 12 cipherText.len
                else .sliceBounds 12 cipherText.cap) := by
  have hlen : ¬ 12 ≤ cipherText.len := by omega
  by_cases hcap : 12 ≤ cipherText.cap
  · simp [DecryptAESGCM, hkey, aes_NewCipher, cipher_NewGCM, Slice.upTo, Slice.startAt,
      hcap, hlen]
  · simp [DecryptAESGCM, hkey, aes_NewCipher, cipher_NewGCM, Slice.upTo, hcap]

/-- The empty input, a 5-byte input, and a 5-byte input with room for 16. -/
theorem DecryptAESGCM_short_input_panics_witness :
    DecryptAESGCM sampleGCM sampleKey ⟨[], []⟩ = .error (.sliceBounds 12 0) ∧
    DecryptAESGCM sampleGCM sampleKey ⟨[1, 2, 3, 4, 5], []⟩ = .error (.sliceBounds 12 5) ∧
    DecryptAESGCM sampleGCM sampleKey ⟨[1, 2, 3, 4, 5], List.replicate 11 0⟩
      = .error (.sliceBounds 12 5) :=
  ⟨DecryptAESGCM_short_input_panics sampleGCM sampleKey ⟨[], []⟩ sampleKey_length (by decide),
   DecryptAESGCM_short_input_panics sampleGCM sampleKey ⟨[1, 2, 3, 4, 5], []⟩
     sampleKey_length (by decide),
   DecryptAESGCM_short_input_panics sampleGCM sampleKey ⟨[1, 2, 3, 4, 5], List.replicate 11 0⟩
     sampleKey_length (by decide)⟩

/-- C8: a successful `EncryptAESGCM(P)` under a 32-byte key returns the nonce
drawn for the call followed by `Seal(key, nonce, P, no associated data)`: the
first 12 bytes are the nonce, the rest is the seal, and with a 16-byte tag the
length is `len(P) + 28`. -/
theorem EncryptAESGCM_wire_format (G : GCMPrimitive) (hG : G.SealAddsTag) (rng : RandReader)
    (key P : Bytes) (hkey : key.length = 32)
    (hok : (EncryptAESGCM G rng key P).2 = none) :
    (rand_Read rng 12).2 = none ∧
    (rand_Read rng 12).1.length = 12 ∧
    (EncryptAESGCM G rng key P).1.take 12 = (rand_Read rng 12).1 ∧
    (EncryptAESGCM G rng key P).1.drop 12 = G.Seal key (rand_Read rng 12).1 P [] ∧
    (EncryptAESGCM G rng key P).1 = (rand_Read rng 12).1 ++ G.Seal key (rand_Read rng 12).1 P [] ∧
    (EncryptAESGCM G rng key P).1.length = P.length + 28 := by
  have hrng : rng.failure = none := by
    cases hf : rng.failure with
    | none => rfl
    | some e =>
      simp [EncryptAESGCM, hkey, aes_NewCipher, cipher_NewGCM, rand_Read, hf] at hok
  have hn : ((List.range 12).map rng.stream).length = 12 := by simp
  rw [EncryptAESGCM_ok G rng key P hkey hrng, rand_Read_ok rng hrng]
  refine ⟨rfl, hn, ?_, ?_, rfl, ?_⟩
  · show List.take 12 (_ ++ _) = _
    rw [List.take_append_eq_append_take]
    simp
  · show List.drop 12 (_ ++ _) = _
    rw [List.drop_append_eq_append_drop]
    simp
  · show List.length (_ ++ _) = _
    rw [List.length_append, hn, hG key _ P hkey hn]
    omega

/-- The wire format on the sample primitive for a 3-byte plaintext: 31 bytes,
the nonce first. -/
theorem EncryptAESGCM_wire_format_witness :
    (EncryptAESGCM sampleGCM sampleRand sampleKey [1, 2, 3]).1.take 12
      = (rand_Read sampleRand 12).1 ∧
    (EncryptAESGCM sampleGCM sampleRand sampleKey [1, 2, 3]).1.length = 3 + 28 :=
  have h := EncryptAESGCM_wire_format sampleGCM sampleGCM_SealAddsTag sampleRand sampleKey
    [1, 2, 3] sampleKey_length (by decide)
  ⟨h.2.2.1, h.2.2.2.2.2⟩

/-- C9: when the store does not hold a 32-byte key (unset, or any other length),
`EncryptAESGCM` and `DecryptAESGCM` return the invalid-key-length error for the
stored length and no bytes, for every input; `DecryptAESGCM` does so for
inputs of every length and capacity, short ones included. -/
theorem aes_gcm_requires_32_byte_key (G : GCMPrimitive) (rng : RandReader) (store : Bytes)
    (hstore : store.length ≠ 32) :
    (∀ secret : Bytes,
      EncryptAESGCM G rng store secret = ([], some (.invalidAESKeyLength store.length))) ∧
    (∀ cipherText : Slice,
      DecryptAESGCM G store cipherText
        = .ok ([], some (.invalidAESKeyLength store.length))) ∧
    (Error.invalidAESKeyLength store.length).message = INVALID_AES_KEY_LENGTH store.length := by
  refine ⟨?_, ?_, rfl⟩
  · intro secret; simp [EncryptAESGCM, hstore]
  · intro cipherText; simp [DecryptAESGCM, hstore]

/-- Encrypt and decrypt over an unset store and over a 16-byte key. -/
theorem aes_gcm_requires_32_byte_key_witness :
    EncryptAESGCM sampleGCM sampleRand [] [1, 2, 3] = ([], some (.invalidAESKeyLength 0)) ∧
    DecryptAESGCM sampleGCM [] ⟨[1, 2, 3], []⟩ = .ok ([], some (.invalidAESKeyLength 0)) ∧
    DecryptAESGCM sampleGCM (List.replicate 16 7) ⟨[], []⟩
      = .ok ([], some (.invalidAESKeyLength 16)) :=
  ⟨(aes_gcm_requires_32_byte_key sampleGCM sampleRand [] (by decide)).1 [1, 2, 3],
   (aes_gcm_requires_32_byte_key sampleGCM sampleRand [] (by decide)).2.1 ⟨[1, 2, 3], []⟩,
   (aes_gcm_requires_32_byte_key sampleGCM sampleRand (List.replicate 16 7) (by decide)).2.1
     ⟨[], []⟩⟩

/-! ## Claims about rsa.go -/

/-- Go `LoadPrivateKey` on a file whose first block parses to a key that is not an
RSA key: the error is returned, and `AppPrivateKey` has been set to nil. -/
theorem LoadPrivateKey_of_non_rsa (L : X509Library) (fs : FileSystem) (store : KeyStore)
    (path binDir : String) (content : Bytes) (block : PemBlock) (parsedKey : PrivateKeyValue)
    (hdir : fs.binDir = .ok binDir)
    (hread : fs.readAll (if path ≠ "" then path else fs.join binDir "app.key") = .ok content)
    (hpem : L.pemDecode content = some block)
    (hparse : L.ParsePKCS8PrivateKey block.Bytes = .ok parsedKey)
    (hkind : ∀ key, parsedKey ≠ .rsa key) :
    LoadPrivateKey L fs store path
      = .returned { store with AppPrivateKey := none } (some .notRSAPrivateKey) := by
  unfold LoadPrivateKey
  cases parsedKey with
  | rsa key => exact absurd rfl (hkind key)
  | ecdsa => simp only [hdir, hread, hpem, hparse]
  | ed25519 => simp only [hdir, hread, hpem, hparse]
  | ecdh => simp only [hdir, hread, hpem, hparse]

/-- Go `LoadPrivateKey` on a file whose first block parses to an RSA key that
passes `Validate`: no error, the key in `AppPrivateKey` and its public half in
`AppPublicKey`. -/
theorem LoadPrivateKey_of_valid_rsa (L : X509Library) (fs : FileSystem) (store : KeyStore)
    (path binDir : String) (content : Bytes) (block : PemBlock) (key : RSAPrivateKey)
    (hdir : fs.binDir = .ok binDir)
    (hread : fs.readAll (if path ≠ "" then path else fs.join binDir "app.key") = .ok content)
    (hpem : L.pemDecode content = some block)
    (hparse : L.ParsePKCS8PrivateKey block.Bytes = .ok (.rsa key))
    (hvalid : L.Validate key = none) :
    LoadPrivateKey L fs store path = .returned ⟨some key.PublicKey, some key⟩ none := by
  unfold LoadPrivateKey
  simp only [hdir, hread, hpem, hparse, hvalid]

/-- C4 (what the code does): on a file whose first PEM block parses as PKCS#8,
`LoadPrivateKey` assigns the result of its type assertion to `AppPrivateKey`
before it looks at the outcome.  For a key that is not an RSA key the call
returns the error "not a parsable RSA private key" and `AppPrivateKey` is nil
afterwards, whatever it held before, with `AppPublicKey` as before: an error is
returned and the store has changed.  A valid RSA key is stored with its public
half and no error. -/
theorem LoadPrivateKey_writes_before_checking (L : X509Library) (fs : FileSystem)
    (store : KeyStore) (path binDir : String) (content : Bytes) (block : PemBlock)
    (hdir : fs.binDir = .ok binDir)
    (hread : fs.readAll (if path ≠ "" then path else fs.join binDir "app.key") = .ok content)
    (hpem : L.pemDecode content = some block) :
    (∀ parsedKey, L.ParsePKCS8PrivateKey block.Bytes = .ok parsedKey →
      (∀ key, parsedKey ≠ .rsa key) →
      LoadPrivateKey L fs store path
        = .returned ⟨store.AppPublicKey, none⟩ (some .notRSAPrivateKey)) ∧
    (∀ key, L.ParsePKCS8PrivateKey block.Bytes = .ok (.rsa key) → L.Validate key = none →
      LoadPrivateKey L fs store path = .returned ⟨some key.PublicKey, some key⟩ none) := by
  refine ⟨?_, ?_⟩
  · intro parsedKey hparse hkind
    exact LoadPrivateKey_of_non_rsa L fs store path binDir content block parsedKey hdir hread
      hpem hparse hkind
  · intro key hparse hval
    exact LoadPrivateKey_of_valid_rsa L fs store path binDir content block key hdir hread hpem
      hparse hval

/-- A store with a key pair loaded, then `LoadPrivateKey` on an elliptic-curve
key file: the error is returned and `AppPrivateKey`, which held a key, is nil.
On a valid RSA key file the new pair replaces the old one. -/
theorem LoadPrivateKey_writes_before_checking_witness :
    LoadPrivateKey sampleX509 (fileSystemWith [45, 2, 0]) loadedStore "ec.key"
      = .returned ⟨some ⟨143, 65537⟩, none⟩ (some .notRSAPrivateKey) ∧
    loadedStore.AppPrivateKey = some ⟨⟨143, 65537⟩, 1, [11, 13]⟩ ∧
    LoadPrivateKey sampleX509 (fileSystemWith [45, 1, 3, 5, 15]) loadedStore "rsa.key"
      = .returned ⟨some ⟨15, 65537⟩, some ⟨⟨15, 65537⟩, 1, [3, 5]⟩⟩ none :=
  ⟨(LoadPrivateKey_writes_before_checking sampleX509 (fileSystemWith [45, 2, 0]) loadedStore
      "ec.key" "/opt/app" [45, 2, 0] ⟨"SAMPLE", [2, 0]⟩ rfl rfl rfl).1 .ecdsa rfl
      (fun _ h => nomatch h),
   rfl,
   (LoadPrivateKey_writes_before_checking sampleX509 (fileSystemWith [45, 1, 3, 5, 15])
      loadedStore "rsa.key" "/opt/app" [45, 1, 3, 5, 15] ⟨"SAMPLE", [1, 3, 5, 15]⟩ rfl rfl
      rfl).2 ⟨⟨15, 65537⟩, 1, [3, 5]⟩ rfl rfl⟩

/-- C5 (what the code does): on readable files that hold no PEM block,
`LoadPrivateKey` and `LoadPublicKey` do not return: both panic on the nil
block that `pem.Decode` gives, with the key store as it was. -/
theorem loaders_panic_without_pem_block (L : X509Library) (fs : FileSystem)
    (store : KeyStore) (path binDir : String) (keyFile crtFile : Bytes)
    (hdir : fs.binDir = .ok binDir)
    (hkey : fs.readAll (if path ≠ "" then path else fs.join binDir "app.key") = .ok keyFile)
    (hcrt : fs.readAll (if path ≠ "" then path else fs.join binDir "app.crt") = .ok crtFile)
    (hkeyPem : L.pemDecode keyFile = none) (hcrtPem : L.pemDecode crtFile = none) :
    LoadPrivateKey L fs store path = .panicked store .nilDereference ∧
    LoadPublicKey L fs store path = .panicked store .nilDereference := by
  constructor
  · unfold LoadPrivateKey
    simp only [hdir, hkey, hkeyPem]
  · unfold LoadPublicKey
    simp only [hdir, hcrt, hcrtPem]

/-- Both loaders on a file holding the text "hello", at the default path. -/
theorem loaders_panic_without_pem_block_witness :
    LoadPrivateKey sampleX509 (fileSystemWith (ascii "hello")) loadedStore ""
      = .panicked loadedStore .nilDereference ∧
    LoadPublicKey sampleX509 (fileSystemWith (ascii "hello")) loadedStore ""
      = .panicked loadedStore .nilDereference :=
  loaders_panic_without_pem_block sampleX509 (fileSystemWith (ascii "hello")) loadedStore ""
    "/opt/app" (ascii "hello") (ascii "hello") rfl rfl rfl (by decide) (by decide)

/-- C6 (what the code does): on a file whose first PEM block parses to a key
that is not RSA, `LoadPrivateKey` returns its error "not a parsable RSA private
key", and `LoadPublicKey` does not return: its type assertion panics. -/
theorem loaders_on_non_rsa_key (L : X509Library) (fs : FileSystem) (store : KeyStore)
    (path binDir : String) (keyFile crtFile : Bytes) (keyBlock crtBlock : PemBlock)
    (parsedKey : PrivateKeyValue) (cert : Certificate)
    (hdir : fs.binDir = .ok binDir)
    (hkey : fs.readAll (if path ≠ "" then path else fs.join binDir "app.key") = .ok keyFile)
    (hcrt : fs.readAll (if path ≠ "" then path else fs.join binDir "app.crt") = .ok crtFile)
    (hkeyPem : L.pemDecode keyFile = some keyBlock)
    (hcrtPem : L.pemDecode crtFile = some crtBlock)
    (hparse : L.ParsePKCS8PrivateKey keyBlock.Bytes = .ok parsedKey)
    (hcert : L.ParseCertificate crtBlock.Bytes = .ok cert)
    (hkeyKind : ∀ key, parsedKey ≠ .rsa key) (hcertKind : ∀ key, cert.PublicKey ≠ .rsa key) :
    LoadPrivateKey L fs store path
      = .returned ⟨store.AppPublicKey, none⟩ (some .notRSAPrivateKey) ∧
    LoadPublicKey L fs store path = .panicked store .typeAssertion := by
  constructor
  · exact LoadPrivateKey_of_non_rsa L fs store path binDir keyFile keyBlock parsedKey hdir hkey
      hkeyPem hparse hkeyKind
  · unfold LoadPublicKey
    simp only [hdir, hcrt, hcrtPem, hcert]

/-- Both loaders on a file whose block carries an elliptic-curve key. -/
theorem loaders_on_non_rsa_key_witness :
    LoadPrivateKey sampleX509 (fileSystemWith [45, 2, 0]) emptyStore "ec.pem"
      = .returned ⟨none, none⟩ (some .notRSAPrivateKey) ∧
    LoadPublicKey sampleX509 (fileSystemWith [45, 2, 0]) emptyStore "ec.pem"
      = .panicked emptyStore .typeAssertion :=
  loaders_on_non_rsa_key sampleX509 (fileSystemWith [45, 2, 0]) emptyStore "ec.pem" "/opt/app"
    [45, 2, 0] [45, 2, 0] ⟨"SAMPLE", [2, 0]⟩ ⟨"SAMPLE", [2, 0]⟩ .ecdsa ⟨.ecdsa⟩ rfl rfl rfl rfl
    rfl rfl rfl (fun _ h => nomatch h) (fun _ h => nomatch h)

/-- C7 (what the code does): with `AppPublicKey` nil, `EncryptOAEP` does not
return for any secret and label: `rsa.EncryptOAEP` reads through the nil
pointer and panics.  `DecryptOAEP` has the check: with `AppPrivateKey` nil it
returns the empty string and the error "AppPrivateKey is not loaded". -/
theorem EncryptOAEP_without_public_key_panics (R : RSALibrary) (rng : RandReader)
    (secret label cipher : Bytes) :
    EncryptOAEP R rng none secret label = .error .nilDereference ∧
    DecryptOAEP R none cipher label = ([], some .privateKeyNotLoaded) ∧
    Error.privateKeyNotLoaded.message = "AppPrivateKey is not loaded" :=
  ⟨rfl, rfl, rfl⟩

/-! ## Claims about hmac.go -/

set_option maxRecDepth 100000 in
/-- The first and last round constants and initial hash words are those of
FIPS 180-4. -/
theorem sha256_constants :
    sha256K.length = 64 ∧ sha256K.head? = some 0x428a2f98 ∧
    sha256K.getLast? = some 0xc67178f2 ∧
    sha256Init = [0x6a09e667, 0xbb67ae85, 0x3c6ef372, 0xa54ff53a, 0x510e527f, 0x9b05688c,
      0x1f83d9ab, 0x5be0cd19] := by
  decide

set_option maxRecDepth 100000 in
/-- The digest of "abc" is the one FIPS 180-4 gives. -/
theorem sha256_abc :
    sha256 (ascii "abc")
      = [0xba, 0x78, 0x16, 0xbf, 0x8f, 0x01, 0xcf, 0xea, 0x41, 0x41, 0x40, 0xde, 0x5d, 0xae,
         0x22, 0x23, 0xb0, 0x03, 0x61, 0xa3, 0x96, 0x17, 0x7a, 0x9c, 0xb4, 0x10, 0xff, 0x61,
         0xf2, 0x00, 0x15, 0xad] := by
  decide

set_option maxRecDepth 100000 in
/-- The signature of test case 2 of RFC 4231. -/
theorem ComputeHMAC256_rfc4231_case2 :
    ComputeHMAC256 (ascii "what do ya want for nothing?") (ascii "Jefe")
      = ascii "W9zBRr9gdU5qBCQmCJV1x1oAPwidJzmDnexYuWTsOEM=" := by
  decide

/-- The HMAC is the outer hash over the outer pad and the inner hash. -/
theorem hmacSHA256_eq (key message : Bytes) :
    hmacSHA256 key message = sha256 (hmacOpad key ++ sha256 (hmacIpad key ++ message)) := rfl

/-- A round keeps the number of working variables. -/
theorem sha256Round_length (s : List Nat) (kw : Nat) : (sha256Round s kw).length = s.length := by
  unfold sha256Round
  split <;> rfl

/-- The rounds keep the number of working variables. -/
theorem sha256Rounds_length (kws : List Nat) :
    ∀ s : List Nat, (kws.foldl sha256Round s).length = s.length := by
  induction kws with
  | nil => intro s; rfl
  | cons kw kws ih => intro s; rw [List.foldl_cons, ih, sha256Round_length]

/-- Compressing a block keeps the number of hash words. -/
theorem sha256Block_length (hash : List Nat) (block : Bytes) :
    (sha256Block hash block).length = hash.length := by
  unfold sha256Block
  simp only [List.length_zipWith, sha256Rounds_length, Nat.min_self]

/-- Compressing the blocks keeps the number of hash words. -/
theorem sha256Blocks_length (blocks : List Bytes) :
    ∀ hash : List Nat, (blocks.foldl sha256Block hash).length = hash.length := by
  induction blocks with
  | nil => intro h; rfl
  | cons b bs ih => intro h; rw [List.foldl_cons, ih, sha256Block_length]

/-- The big-endian form on `n` bytes has `n` bytes. -/
theorem bigEndian_length : ∀ (n x : Nat), (bigEndian n x).length = n
  | 0, _ => rfl
  | n + 1, x => by simp [bigEndian, bigEndian_length n]

/-- Each hash word gives 4 bytes. -/
theorem words_length : ∀ (ws : List Nat), ((ws.map (bigEndian 4)).flatten).length = 4 * ws.length
  | [] => rfl
  | w :: ws => by
    simp only [List.map_cons, List.flatten_cons, List.length_append, bigEndian_length,
      words_length ws, List.length_cons]
    omega

/-- A SHA-256 digest has 32 bytes. -/
theorem sha256_length (msg : Bytes) : (sha256 msg).length = 32 := by
  unfold sha256
  simp only [words_length, sha256Blocks_length]
  rfl

/-- The HMAC key block has 64 bytes. -/
theorem hmacKeyBlock_length (key : Bytes) : (hmacKeyBlock key).length = 64 := by
  unfold hmacKeyBlock
  by_cases h : key.length > 64
  · simp only [if_pos h, List.length_append, List.length_replicate, sha256_length]
  · simp only [if_neg h, List.length_append, List.length_replicate]
    omega

/-- Applying a pad byte twice gives the byte back. -/
theorem xorPad_involutive (p : Nat) (hp : p < 256) (b : Byte) :
    (Fin.ofNat ((Fin.ofNat (b.val ^^^ p) : Byte).val ^^^ p) : Byte) = b := by
  have h1 : b.val ^^^ p < 256 := Nat.xor_lt_two_pow (n := 8) b.isLt hp
  apply Fin.ext
  simp only [Fin.ofNat, Fin.val_mk]
  have h2 : (b.val ^^^ p) % 256 = b.val ^^^ p := Nat.mod_eq_of_lt h1
  show ((b.val ^^^ p) % 256 ^^^ p) % 256 = b.val
  rw [h2, Nat.xor_assoc, Nat.xor_self, Nat.xor_zero]
  exact Nat.mod_eq_of_lt b.isLt

/-- Blocks that are equal after padding are equal. -/
theorem xorPad_map_injective (p : Nat) (hp : p < 256) (l l2 : Bytes)
    (h : l.map (fun b => (Fin.ofNat (b.val ^^^ p) : Byte))
       = l2.map (fun b => (Fin.ofNat (b.val ^^^ p) : Byte))) : l = l2 := by
  have h2 := congrArg (List.map (fun b : Byte => (Fin.ofNat (b.val ^^^ p) : Byte))) h
  simp only [List.map_map] at h2
  have hid : ((fun b : Byte => (Fin.ofNat (b.val ^^^ p) : Byte)) ∘
      (fun b : Byte => (Fin.ofNat (b.val ^^^ p) : Byte))) = id := by
    funext b
    exact xorPad_involutive p hp b
  rwa [hid, List.map_id, List.map_id] at h2

/-- The value of the character of a 6-bit value is that value. -/
theorem base64Index_char : ∀ v, v < 64 → base64Index (base64Char v) = v := by
  decide

/-- No character of the alphabet is the padding character. -/
theorem base64Char_ne_pad : ∀ v, v < 64 → base64Char v ≠ 61 := by
  decide

/-- Different 6-bit values have different characters. -/
theorem base64Char_inj (v w : Nat) (hv : v < 64) (hw : w < 64)
    (h : base64Char v = base64Char w) : v = w := by
  have h2 := congrArg base64Index h
  rwa [base64Index_char v hv, base64Index_char w hw] at h2

/-- The four characters of a 24-bit group determine the group. -/
theorem base64_group_inj (v w : Nat) (hv : v < 16777216) (hw : w < 16777216)
    (h1 : base64Char (v / 262144) = base64Char (w / 262144))
    (h2 : base64Char (v / 4096 % 64) = base64Char (w / 4096 % 64))
    (h3 : base64Char (v / 64 % 64) = base64Char (w / 64 % 64))
    (h4 : base64Char (v % 64) = base64Char (w % 64)) : v = w := by
  have e1 := base64Char_inj _ _ (by omega) (by omega) h1
  have e2 := base64Char_inj _ _ (by omega) (by omega) h2
  have e3 := base64Char_inj _ _ (by omega) (by omega) h3
  have e4 := base64Char_inj _ _ (by omega) (by omega) h4
  omega

/-- The base64 text determines the bytes. -/
theorem base64Encode_injective : ∀ l l2 : Bytes, base64Encode l = base64Encode l2 → l = l2
  | [], [] => fun _ => rfl
  | [], [_] => fun h => by simp [base64Encode] at h
  | [], [_, _] => fun h => by simp [base64Encode] at h
  | [], _ :: _ :: _ :: _ => fun h => by simp [base64Encode] at h
  | [_], [] => fun h => by simp [base64Encode] at h
  | [_, _], [] => fun h => by simp [base64Encode] at h
  | _ :: _ :: _ :: _, [] => fun h => by simp [base64Encode] at h
  | [a], [a2] => fun h => by
    simp only [base64Encode, List.cons.injEq] at h
    have e1 := base64Char_inj _ _ (by omega) (by omega) h.1
    have e2 := base64Char_inj _ _ (by omega) (by omega) h.2.1
    have := a.isLt; have := a2.isLt
    have : a.val = a2.val := by omega
    rw [Fin.ext this]
  | [a], [a2, b2] => fun h => by
    simp only [base64Encode, List.cons.injEq] at h
    exact absurd h.2.2.1.symm (base64Char_ne_pad _ (by omega))
  | [a], a2 :: b2 :: c2 :: r2 => fun h => by
    simp only [base64Encode, List.cons.injEq] at h
    exact absurd h.2.2.1.symm (base64Char_ne_pad _ (by omega))
  | [a, b], [a2] => fun h => by
    simp only [base64Encode, List.cons.injEq] at h
    exact absurd h.2.2.1 (base64Char_ne_pad _ (by omega))
  | a :: b :: c :: r, [a2] => fun h => by
    simp only [base64Encode, List.cons.injEq] at h
    exact absurd h.2.2.1 (base64Char_ne_pad _ (by omega))
  | [a, b], [a2, b2] => fun h => by
    simp only [base64Encode, List.cons.injEq] at h
    have e1 := base64Char_inj _ _ (by omega) (by omega) h.1
    have e2 := base64Char_inj _ _ (by omega) (by omega) h.2.1
    have e3 := base64Char_inj _ _ (by omega) (by omega) h.2.2.1
    have := a.isLt; have := a2.isLt; have := b.isLt; have := b2.isLt
    have ha : a.val = a2.val := by omega
    have hb : b.val = b2.val := by omega
    rw [Fin.ext ha, Fin.ext hb]
  | [a, b], a2 :: b2 :: c2 :: r2 => fun h => by
    simp only [base64Encode, List.cons.injEq] at h
    exact absurd h.2.2.2.1.symm (base64Char_ne_pad _ (by omega))
  | a :: b :: c :: r, [a2, b2] => fun h => by
    simp only [base64Encode, List.cons.injEq] at h
    exact absurd h.2.2.2.1 (base64Char_ne_pad _ (by omega))
  | a :: b :: c :: r, a2 :: b2 :: c2 :: r2 => fun h => by
    simp only [base64Encode, List.cons.injEq] at h
    have := a.isLt; have := a2.isLt; have := b.isLt; have := b2.isLt
    have := c.isLt; have := c2.isLt
    have hv := base64_group_inj _ _ (by omega) (by omega) h.1 h.2.1 h.2.2.1 h.2.2.2.1
    have hr := base64Encode_injective r r2 h.2.2.2.2
    have ha : a.val = a2.val := by omega
    have hb : b.val = b2.val := by omega
    have hc : c.val = c2.val := by omega
    rw [Fin.ext ha, Fin.ext hb, Fin.ext hc, hr]

/-- The base64 text has 4 characters for every 3 bytes begun. -/
theorem base64Encode_length : ∀ l : Bytes, (base64Encode l).length = 4 * ((l.length + 2) / 3)
  | [] => rfl
  | [_] => by simp [base64Encode]
  | [_, _] => by simp [base64Encode]
  | _ :: _ :: _ :: rest => by
    simp only [base64Encode, List.length_cons, base64Encode_length rest]
    omega

/-- A signature has 44 characters. -/
theorem ComputeHMAC256_length (message secret : Bytes) :
    (ComputeHMAC256 message secret).length = 44 := by
  unfold ComputeHMAC256
  simp only [base64Encode_length, hmacSHA256_eq, sha256_length]

/-- Equal signatures come from equal HMAC key blocks and equal messages, unless
SHA-256 collides on the inner or on the outer hash inputs. -/
theorem ComputeHMAC256_eq_imp (msg secret msg2 secret2 : Bytes)
    (hinner : ¬ sha256Collide (hmacIpad secret2 ++ msg2) (hmacIpad secret ++ msg))
    (houter : ¬ sha256Collide (hmacOpad secret2 ++ sha256 (hmacIpad secret2 ++ msg2))
                (hmacOpad secret ++ sha256 (hmacIpad secret ++ msg)))
    (h : ComputeHMAC256 msg2 secret2 = ComputeHMAC256 msg secret) :
    msg2 = msg ∧ hmacKeyBlock secret2 = hmacKeyBlock secret := by
  unfold ComputeHMAC256 at h
  have h1 := base64Encode_injective _ _ h
  rw [hmacSHA256_eq, hmacSHA256_eq] at h1
  have h2 : hmacOpad secret2 ++ sha256 (hmacIpad secret2 ++ msg2)
      = hmacOpad secret ++ sha256 (hmacIpad secret ++ msg) := by
    by_contra hne
    exact houter ⟨hne, h1⟩
  have hlen : (hmacOpad secret2).length = (hmacOpad secret).length := by
    simp only [hmacOpad, List.length_map, hmacKeyBlock_length]
  have h3 := List.append_inj h2 hlen
  have hkey : hmacKeyBlock secret2 = hmacKeyBlock secret :=
    xorPad_map_injective 0x5c (by decide) _ _ h3.1
  have h4 : hmacIpad secret2 ++ msg2 = hmacIpad secret ++ msg := by
    by_contra hne
    exact hinner ⟨hne, h3.2⟩
  have hlen2 : (hmacIpad secret2).length = (hmacIpad secret).length := by
    simp only [hmacIpad, List.length_map, hmacKeyBlock_length]
  exact ⟨(List.append_inj h4 hlen2).2, hkey⟩

/-- The signature is a function of the message and the HMAC key block. -/
theorem ComputeHMAC256_of_keyBlock (msg secret secret2 : Bytes)
    (h : hmacKeyBlock secret2 = hmacKeyBlock secret) :
    ComputeHMAC256 msg secret2 = ComputeHMAC256 msg secret := by
  unfold ComputeHMAC256
  simp only [hmacSHA256_eq, hmacOpad, hmacIpad, h]

/-- Signatures have 44 characters and messages are unbounded, so two different
messages share a signature under the empty secret. -/
theorem ComputeHMAC256_message_collision :
    ∃ msg msg2 : Bytes, msg2 ≠ msg ∧ ComputeHMAC256 msg2 [] = ComputeHMAC256 msg [] := by
  let f : Nat → Mathlib.Vector Byte 44 :=
    fun n => ⟨ComputeHMAC256 (List.replicate n 0) [], ComputeHMAC256_length _ _⟩
  obtain ⟨n, m, hne, heq⟩ := Finite.exists_ne_map_eq_of_infinite f
  refine ⟨List.replicate m 0, List.replicate n 0, ?_, congrArg Subtype.val heq⟩
  intro h
  apply hne
  have := congrArg List.length h
  simpa using this

/-- Two different secrets of the same length, at most 64 bytes, have different
HMAC key blocks. -/
theorem hmacKeyBlock_ne_of_same_length (secret secret2 : Bytes) (hne : secret2 ≠ secret)
    (hlen : secret2.length = secret.length) (h64 : secret.length ≤ 64) :
    hmacKeyBlock secret2 ≠ hmacKeyBlock secret := by
  intro h
  have h1 : ¬ secret.length > 64 := by omega
  have h2 : ¬ secret2.length > 64 := by omega
  unfold hmacKeyBlock at h
  simp only [if_neg h1, if_neg h2] at h
  exact hne (List.append_inj h hlen).1

/-- C10 (as stated, refuted): the signature of message "m" under secret "k" is
accepted for the same message under the different secret "k" followed by a
zero byte; and since signatures have 44 characters, some two different
messages are accepted for each other under the empty secret. -/
theorem IsMatchedHMAC256_accepts_altered_input :
    ((ascii "m" ≠ ascii "m" ∨ ([107, 0] : Bytes) ≠ ascii "k") ∧
      IsMatchedHMAC256 (ComputeHMAC256 (ascii "m") (ascii "k")) (ascii "m") [107, 0] = true) ∧
    (∃ msg msg2 : Bytes, msg2 ≠ msg ∧
      IsMatchedHMAC256 (ComputeHMAC256 msg []) msg2 [] = true) := by
  refine ⟨⟨Or.inr (by decide), ?_⟩, ?_⟩
  · have hk : ascii "k" = [107] := by decide
    have hm : ascii "m" = [109] := by decide
    rw [hk, hm]
    simp only [IsMatchedHMAC256, beq_iff_eq]
    exact ComputeHMAC256_of_keyBlock [109] [107] [107, 0] (by decide)
  · obtain ⟨msg, msg2, hne, heq⟩ := ComputeHMAC256_message_collision
    exact ⟨msg, msg2, hne, by simp only [IsMatchedHMAC256, beq_iff_eq]; exact heq⟩

/-- C10 (amended): `IsMatchedHMAC256(ComputeHMAC256(msg, secret), msg, secret)`
is true for every message and secret.  For another message `msg2` and secret
`secret2` the result is true when the message is the same and the secret gives
the same 64-byte HMAC key block (the secret padded with zero bytes, or its
digest padded when it is longer than 64 bytes), so a secret of less than 64
bytes followed by a zero byte is accepted.  The result is false when the message
or the key block differs, unless SHA-256 collides on the two inner or on the
two outer hash inputs; two different secrets of the same length, at most 64
bytes, have different key blocks. -/
theorem IsMatchedHMAC256_contract (msg secret msg2 secret2 : Bytes) :
    IsMatchedHMAC256 (ComputeHMAC256 msg secret) msg secret = true ∧
    (msg2 = msg → hmacKeyBlock secret2 = hmacKeyBlock secret →
      IsMatchedHMAC256 (ComputeHMAC256 msg secret) msg2 secret2 = true) ∧
    (secret.length < 64 → hmacKeyBlock (secret ++ [0]) = hmacKeyBlock secret) ∧
    ((msg2 ≠ msg ∨ hmacKeyBlock secret2 ≠ hmacKeyBlock secret) →
      ¬ sha256Collide (hmacIpad secret2 ++ msg2) (hmacIpad secret ++ msg) →
      ¬ sha256Collide (hmacOpad secret2 ++ sha256 (hmacIpad secret2 ++ msg2))
          (hmacOpad secret ++ sha256 (hmacIpad secret ++ msg)) →
      IsMatchedHMAC256 (ComputeHMAC256 msg secret) msg2 secret2 = false) ∧
    (secret2 ≠ secret → secret2.length = secret.length → secret.length ≤ 64 →
      hmacKeyBlock secret2 ≠ hmacKeyBlock secret) := by
  refine ⟨?_, ?_, ?_, ?_, ?_⟩
  · simp [IsMatchedHMAC256]
  · intro hmsg hkey
    rw [hmsg]
    simp only [IsMatchedHMAC256, beq_iff_eq]
    exact ComputeHMAC256_of_keyBlock msg secret secret2 hkey
  · intro h
    have h1 : ¬ (secret ++ [0]).length > 64 := by
      rw [List.length_append, List.length_singleton]; omega
    have h2 : ¬ secret.length > 64 := by omega
    have h3 : 64 - secret.length = (64 - (secret.length + 1)) + 1 := by omega
    unfold hmacKeyBlock
    simp only [if_neg h1, if_neg h2]
    rw [List.length_append, List.length_singleton, h3, List.replicate_succ]
    simp
  · intro hdiff hinner houter
    cases hres : IsMatchedHMAC256 (ComputeHMAC256 msg secret) msg2 secret2 with
    | false => rfl
    | true =>
      simp only [IsMatchedHMAC256, beq_iff_eq] at hres
      have := ComputeHMAC256_eq_imp msg secret msg2 secret2 hinner houter hres
      rcases hdiff with hd | hd
      · exact absurd this.1 hd
      · exact absurd this.2 hd
  · intro hne hlen h64
    exact hmacKeyBlock_ne_of_same_length secret secret2 hne hlen h64

set_option maxRecDepth 100000 in
/-- The contract at message "m" and secret "k": the signature matches; it
matches under "k" followed by a zero byte; it is refused for the message "n"
and for the secret "l", where SHA-256 does not collide. -/
theorem IsMatchedHMAC256_contract_witness :
    IsMatchedHMAC256 (ComputeHMAC256 [109] [107]) [109] [107] = true ∧
    IsMatchedHMAC256 (ComputeHMAC256 [109] [107]) [109] [107, 0] = true ∧
    IsMatchedHMAC256 (ComputeHMAC256 [109] [107]) [110] [107] = false ∧
    IsMatchedHMAC256 (ComputeHMAC256 [109] [107]) [109] [108] = false :=
  ⟨(IsMatchedHMAC256_contract [109] [107] [109] [107]).1,
   (IsMatchedHMAC256_contract [109] [107] [109] [107, 0]).2.1 rfl
     ((IsMatchedHMAC256_contract [109] [107] [109] [107]).2.2.1 (by decide)),
   (IsMatchedHMAC256_contract [109] [107] [110] [107]).2.2.2.1 (Or.inl (by decide))
     (by decide) (by decide),
   (IsMatchedHMAC256_contract [109] [107] [109] [108]).2.2.2.1
     (Or.inr ((IsMatchedHMAC256_contract [109] [107] [109] [108]).2.2.2.2 (by decide)
       (by decide) (by decide)))
     (by decide) (by decide)⟩

/-! ## Further properties of the code -/

/-- With a 32-byte key, `DecryptAESGCM` on an input that starts with 12 bytes
returns all or nothing: the plaintext `Open` gives with a nil error, or no
bytes with the error of `Open`. -/
theorem DecryptAESGCM_all_or_nothing (G : GCMPrimitive) (key nonce rest spare : Bytes)
    (hkey : key.length = 32) (hnonce : nonce.length = 12) :
    (∀ secret, G.Open key nonce rest [] = some secret →
      DecryptAESGCM G key ⟨nonce ++ rest, spare⟩ = .ok (secret, none)) ∧
    (G.Open key nonce rest [] = none →
      DecryptAESGCM G key ⟨nonce ++ rest, spare⟩ = .ok ([], some .gcmOpenFailed)) := by
  constructor
  · intro secret h
    rw [DecryptAESGCM_split G key nonce rest spare hkey hnonce, h]
  · intro h
    rw [DecryptAESGCM_split G key nonce rest spare hkey hnonce, h]

/-- A sealed message whose last byte was changed is refused by the sample
primitive, and `DecryptAESGCM` returns the error and no bytes. -/
theorem DecryptAESGCM_all_or_nothing_witness :
    DecryptAESGCM sampleGCM sampleKey ⟨(rand_Read sampleRand 12).1 ++ [3, 2, 1] ++
        List.replicate 15 4 ++ [5], []⟩ = .ok ([], some .gcmOpenFailed) :=
  (DecryptAESGCM_all_or_nothing sampleGCM sampleKey (rand_Read sampleRand 12).1
    ([3, 2, 1] ++ List.replicate 15 4 ++ [5]) [] sampleKey_length (by decide)).2 (by decide)

/-- A failure of `LoadPrivateKey` before its type assertion (no executable
directory, a file that cannot be read, a block that is not PKCS#8) returns the
error of the failing step and leaves the key store as it was. -/
theorem LoadPrivateKey_early_error_keeps_store (L : X509Library) (fs : FileSystem)
    (store : KeyStore) (path : String) (err : Error) :
    (fs.binDir = .error err → LoadPrivateKey L fs store path = .returned store (some err)) ∧
    (∀ binDir, fs.binDir = .ok binDir →
      fs.readAll (if path ≠ "" then path else fs.join binDir "app.key") = .error err →
      LoadPrivateKey L fs store path = .returned store (some err)) ∧
    (∀ binDir content block, fs.binDir = .ok binDir →
      fs.readAll (if path ≠ "" then path else fs.join binDir "app.key") = .ok content →
      L.pemDecode content = some block →
      L.ParsePKCS8PrivateKey block.Bytes = .error err →
      LoadPrivateKey L fs store path = .returned store (some err)) := by
  refine ⟨?_, ?_, ?_⟩
  · intro h
    unfold LoadPrivateKey
    simp only [h]
  · intro binDir hdir hread
    unfold LoadPrivateKey
    simp only [hdir, hread]
  · intro binDir content block hdir hread hpem hparse
    unfold LoadPrivateKey
    simp only [hdir, hread, hpem, hparse]

/-- Go `LoadPublicKey` on a file whose first block parses to a certificate
with an RSA public key returns no error, stores that key in `AppPublicKey`
and leaves `AppPrivateKey` as it was. -/
theorem LoadPublicKey_of_rsa (L : X509Library) (fs : FileSystem) (store : KeyStore)
    (path binDir : String) (content : Bytes) (block : PemBlock) (cert : Certificate)
    (key : RSAPublicKey)
    (hdir : fs.binDir = .ok binDir)
    (hread : fs.readAll (if path ≠ "" then path else fs.join binDir "app.crt") = .ok content)
    (hpem : L.pemDecode content = some block)
    (hcert : L.ParseCertificate block.Bytes = .ok cert)
    (hkey : cert.PublicKey = .rsa key) :
    LoadPublicKey L fs store path = .returned ⟨some key, store.AppPrivateKey⟩ none := by
  unfold LoadPublicKey
  simp only [hdir, hread, hpem, hcert, hkey]

/-- An RSA certificate loaded over a store that holds a key pair. -/
theorem LoadPublicKey_of_rsa_witness :
    LoadPublicKey sampleX509 (fileSystemWith [45, 1, 77]) loadedStore ""
      = .returned ⟨some ⟨77, 65537⟩, some ⟨⟨143, 65537⟩, 1, [11, 13]⟩⟩ none :=
  LoadPublicKey_of_rsa sampleX509 (fileSystemWith [45, 1, 77]) loadedStore "" "/opt/app"
    [45, 1, 77] ⟨"SAMPLE", [1, 77]⟩ ⟨.rsa ⟨77, 65537⟩⟩ ⟨77, 65537⟩ rfl rfl rfl rfl rfl

/-- With a public key loaded, `EncryptOAEP` does not panic: it returns the
base64 text of the ciphertext the library gives, or the empty string with the
error of the library. -/
theorem EncryptOAEP_with_public_key (R : RSALibrary) (rng : RandReader) (key : RSAPublicKey)
    (secret label : Bytes) :
    EncryptOAEP R rng (some key) secret label
      = match R.EncryptOAEP rng key secret label with
        | .ok cipherText => .ok (base64Encode cipherText, none)
        | .error err => .ok ([], some err) := by
  unfold EncryptOAEP rsa_EncryptOAEP
  cases h : R.EncryptOAEP rng key secret label <;> simp only [h]

end Appsec
